import Mathlib

/-!
Verification development for the OwlDB hierarchical NoSQL document database.

The Go source is shallowly embedded: pure helper functions become Lean
functions; the concurrent skip list is modelled by its level-0 linked list of
live (fully linked, unmarked) nodes, with single-threaded execution semantics;
machine integers (millisecond and nanosecond timestamps) are modelled as `Int`;
fallible Go functions returning `(T, error)` become `Except String T` or
`T × Option String`.
-/

namespace OwlDB

/-- JSON values, after `jsondata.NewJSONValue` canonicalisation: an object is a
Go `map[string]any` (modelled as an association list of its entries), an array
is a `[]any`, plus string, number, boolean and null leaves.  JSON numbers are
IEEE-754 doubles in the source; none of the verified claims depends on numeric
semantics (only structural equality of values is ever used), so the number
carrier is modelled by `Int`. -/
inductive Json : Type where
  | obj : List (String × Json) → Json
  | arr : List Json → Json
  | str : String → Json
  | num : Int → Json
  | bool : Bool → Json
  | null : Json

/-- Go map lookup `m[k]` on an association-list model of a `map[string]α`. -/
def findVal {α : Type} : List (String × α) → String → Option α
  | [], _ => none
  | (k, v) :: rest, key => if k = key then some v else findVal rest key

/-- Keys of a Go map are unique; this is the association-list invariant that
makes the model faithful to `map[string]α`. -/
def nodupKeys {α : Type} : List (String × α) → Bool
  | [] => true
  | (k, _) :: rest => (findVal rest k).isNone && nodupKeys rest

mutual
/-- `jsondata.JSONValue.Equal`, i.e. `reflect.DeepEqual` on unwrapped JSON
data: deep structural equality, where Go maps compare by key set (insertion
order irrelevant) and slices compare pointwise. -/
def jsonEq : Json → Json → Bool
  | .obj xs, .obj ys => xs.length == ys.length && objEntriesIn xs ys
  | .arr xs, .arr ys => arrAllEq xs ys
  | .str a, .str b => a == b
  | .num a, .num b => a == b
  | .bool a, .bool b => a == b
  | .null, .null => true
  | _, _ => false
termination_by a _ => sizeOf a

/-- Every entry of `xs` is present in the map `ys` with a deeply equal value
(the per-key half of `reflect.DeepEqual` on maps). -/
def objEntriesIn : List (String × Json) → List (String × Json) → Bool
  | [], _ => true
  | (k, v) :: rest, ys =>
    (match findVal ys k with
     | some w => jsonEq v w
     | none => false) && objEntriesIn rest ys
termination_by xs _ => sizeOf xs

/-- Pointwise deep equality of two JSON arrays (`reflect.DeepEqual` on
slices). -/
def arrAllEq : List Json → List Json → Bool
  | [], [] => true
  | x :: xs, y :: ys => jsonEq x y && arrAllEq xs ys
  | _, _ => false
termination_by xs _ => sizeOf xs
end

mutual
/-- Well-formedness of a JSON value as produced by unmarshalling Go data:
every object has pairwise-distinct keys (Go maps cannot hold a key twice).
The association-list model can express duplicate keys, which unmarshalled Go
data never exhibits, so theorems about structural equality assume `wf`. -/
def Json.wf : Json → Bool
  | .obj fields => nodupKeys fields && fieldsWf fields
  | .arr xs => listWf xs
  | _ => true
termination_by j => sizeOf j

/-- All values of an object's entries are well-formed. -/
def fieldsWf : List (String × Json) → Bool
  | [] => true
  | (_, v) :: rest => v.wf && fieldsWf rest
termination_by xs => sizeOf xs

/-- All elements of an array are well-formed. -/
def listWf : List Json → Bool
  | [] => true
  | x :: xs => x.wf && listWf xs
termination_by xs => sizeOf xs
end

theorem findVal_isSome_of_mem {α : Type} {xs : List (String × α)} {p : String × α}
    (h : p ∈ xs) : (findVal xs p.1).isSome := by
  induction xs with
  | nil => cases h
  | cons q rest ih =>
    obtain ⟨k, v⟩ := q
    rcases List.mem_cons.mp h with rfl | hmem
    · simp [findVal]
    · by_cases hk : k = p.1
      · simp [findVal, hk]
      · simpa [findVal, hk] using ih hmem

theorem findVal_of_mem_nodup {α : Type} {xs : List (String × α)} {p : String × α}
    (hnd : nodupKeys xs = true) (h : p ∈ xs) : findVal xs p.1 = some p.2 := by
  induction xs with
  | nil => cases h
  | cons q rest ih =>
    obtain ⟨k, v⟩ := q
    simp only [nodupKeys, Bool.and_eq_true] at hnd
    rcases List.mem_cons.mp h with rfl | hmem
    · simp [findVal]
    · have hne : k ≠ p.1 := by
        intro heq
        have hs := findVal_isSome_of_mem hmem
        rw [← heq] at hs
        rw [Option.isNone_iff_eq_none] at hnd
        simp [hnd.1] at hs
      simp [findVal, hne, ih hnd.2 hmem]

mutual
/-- Structural deep equality is reflexive on well-formed JSON values. -/
theorem jsonEq_refl : ∀ j : Json, j.wf = true → jsonEq j j = true
  | .obj xs, h => by
    simp only [Json.wf, Bool.and_eq_true] at h
    simp only [jsonEq, Bool.and_eq_true, beq_self_eq_true, true_and]
    exact objEntriesIn_super xs xs h.2 (fun p hp => findVal_of_mem_nodup h.1 hp)
  | .arr xs, h => by
    simp only [Json.wf] at h
    simpa only [jsonEq] using arrAllEq_refl xs h
  | .str s, _ => by simp [jsonEq]
  | .num n, _ => by simp [jsonEq]
  | .bool b, _ => by simp [jsonEq]
  | .null, _ => by simp [jsonEq]
termination_by j _ => sizeOf j

/-- If every entry of `xs` is found verbatim in `ys`, then `objEntriesIn xs ys`
holds (all values of `xs` being well-formed). -/
theorem objEntriesIn_super : ∀ xs ys : List (String × Json), fieldsWf xs = true →
    (∀ p ∈ xs, findVal ys p.1 = some p.2) → objEntriesIn xs ys = true
  | [], _, _, _ => by simp [objEntriesIn]
  | (k, v) :: rest, ys, hwf, hfind => by
    simp only [fieldsWf, Bool.and_eq_true] at hwf
    have h1 : findVal ys k = some v := hfind (k, v) (List.mem_cons_self _ _)
    simp only [objEntriesIn, h1, Bool.and_eq_true]
    exact ⟨jsonEq_refl v hwf.1,
      objEntriesIn_super rest ys hwf.2 (fun p hp => hfind p (List.mem_cons_of_mem _ hp))⟩
termination_by xs _ _ _ => sizeOf xs

/-- Pointwise deep equality is reflexive on lists of well-formed values. -/
theorem arrAllEq_refl : ∀ xs : List Json, listWf xs = true → arrAllEq xs xs = true
  | [], _ => by simp [arrAllEq]
  | x :: xs, h => by
    simp only [listWf, Bool.and_eq_true] at h
    simp only [arrAllEq, Bool.and_eq_true]
    exact ⟨jsonEq_refl x h.1, arrAllEq_refl xs h.2⟩
termination_by xs _ => sizeOf xs
end

/-! ## JSON-pointer patch engine (`storage/document.go`) -/

/-- Go's `strings.Split(s, "/")` on the character-list view of a string:
splits at every `/`, keeping empty segments. -/
def splitSlash : List Char → List (List Char)
  | [] => [[]]
  | c :: rest =>
    if c = '/' then [] :: splitSlash rest
    else
      match splitSlash rest with
      | [] => [[c]]
      | seg :: segs => (c :: seg) :: segs

/-- Go's `strings.ReplaceAll` for a two-character pattern, scanning left to
right and replacing non-overlapping occurrences (used for the JSON-pointer
escapes `~1` → `/` and `~0` → `~`). -/
def replacePair : List Char → Char → Char → Char → List Char
  | [], _, _, _ => []
  | [c], _, _, _ => [c]
  | c1 :: c2 :: rest, p1, p2, r =>
    if c1 = p1 ∧ c2 = p2 then r :: replacePair rest p1 p2 r
    else c1 :: replacePair (c2 :: rest) p1 p2 r

/-- Unescape one JSON-pointer segment: `~1` → `/` first, then `~0` → `~`
(the order used by `parseJSONPointer` in the source). -/
def unescapeSeg (s : List Char) : List Char :=
  replacePair (replacePair s '~' '1' '/') '~' '0' '~'

/-- `parseJSONPointer` from `storage/document.go`: the empty pointer yields no
segments; otherwise the pointer must start with `/`; the remainder is split on
`/` and each segment unescaped. -/
def parseJSONPointer (pointer : String) : Except String (List String) :=
  match pointer.toList with
  | [] => .ok []
  | c :: rest =>
    if c = '/' then .ok ((splitSlash rest).map (fun seg => (unescapeSeg seg).asString))
    else .error ("invalid JSON pointer: " ++ pointer)

/-- Go's rebuild of an object in `navigatorModifyVisitor.Map`: every entry is
kept, with the entry at the navigated key replaced by the modified child. -/
def replaceVal (fields : List (String × Json)) (key : String) (c : Json) :
    List (String × Json) :=
  fields.map (fun p => if p.1 = key then (p.1, c) else p)

/-- `modifyJSON` from `storage/document.go`: navigate through object variants
along the pointer segments and apply `modifyFunc` at the target.  A missing
key, or any non-object at a non-terminal segment, is an error (the
`navigatorModifyVisitor` error messages). -/
def modifyJSON (jsonDoc : Json) (pathSegments : List String)
    (modifyFunc : Json → Except String Json) : Except String Json :=
  match pathSegments with
  | [] => modifyFunc jsonDoc
  | seg :: rest =>
    match jsonDoc with
    | .obj fields =>
      match findVal fields seg with
      | none => .error ("key '" ++ seg ++ "' not found in object")
      | some child =>
        match modifyJSON child rest modifyFunc with
        | .error e => .error e
        | .ok child2 => .ok (.obj (replaceVal fields seg child2))
    | .arr _ => .error "unexpected array while navigating"
    | .bool _ => .error "unexpected bool while navigating"
    | .num _ => .error "unexpected number while navigating"
    | .str _ => .error "unexpected string while navigating"
    | .null => .error "unexpected null while navigating"

/-- The element-containment loop of `applyArrayAdd`'s modify function: is some
element of the array structurally equal to `v`? -/
def jsonContains : List Json → Json → Bool
  | [], _ => false
  | x :: xs, v => jsonEq x v || jsonContains xs v

/-- The modify function of `applyArrayAdd`: append `v` unless a
structurally-equal element is already present. -/
def arrAddList (a : List Json) (v : Json) : List Json :=
  if jsonContains a v then a else a ++ [v]

/-- The modify function of `applyArrayRemove`: keep exactly the elements that
are not structurally equal to `v` (removes all equal occurrences). -/
def arrRemoveList (a : List Json) (v : Json) : List Json :=
  a.filter (fun x => !jsonEq x v)

/-- The `arrayModifyVisitor` of the source, specialised to a pure list
transformation: arrays are rewritten, every other variant is a type error. -/
def arrayVisit (f : List Json → List Json) : Json → Except String Json
  | .arr xs => .ok (.arr (f xs))
  | .obj _ => .error "expected array but found object"
  | .bool _ => .error "expected array but found bool"
  | .num _ => .error "expected array but found number"
  | .str _ => .error "expected array but found string"
  | .null => .error "expected array but found null"

/-- `applyArrayAdd` from `storage/document.go`. -/
def applyArrayAdd (jsonDoc : Json) (pathSegments : List String) (newValue : Json) :
    Except String Json :=
  match pathSegments with
  | [] => .error "path refers to the whole document, which must be an array"
  | _ => modifyJSON jsonDoc pathSegments (arrayVisit (fun a => arrAddList a newValue))

/-- `applyArrayRemove` from `storage/document.go`. -/
def applyArrayRemove (jsonDoc : Json) (pathSegments : List String) (valueToRemove : Json) :
    Except String Json :=
  match pathSegments with
  | [] => .error "path refers to the whole document, which must be an array"
  | _ => modifyJSON jsonDoc pathSegments (arrayVisit (fun a => arrRemoveList a valueToRemove))

/-- The `objectModifyVisitor` of `applyObjectAdd`: insert `(key, v)` iff the
key is absent; an existing property is left untouched.  Non-objects are type
errors. -/
def objectAddVisit (key : String) (v : Json) : Json → Except String Json
  | .obj fields =>
    match findVal fields key with
    | some _ => .ok (.obj fields)
    | none => .ok (.obj (fields ++ [(key, v)]))
  | .arr _ => .error "expected object but found array"
  | .bool _ => .error "expected object but found bool"
  | .num _ => .error "expected object but found number"
  | .str _ => .error "expected object but found string"
  | .null => .error "expected object but found null"

/-- `applyObjectAdd` from `storage/document.go`: the final segment is the
property key, the rest navigates to the parent object. -/
def applyObjectAdd (jsonDoc : Json) (pathSegments : List String) (newValue : Json) :
    Except String Json :=
  match pathSegments with
  | [] => .error "path refers to the whole document, which must be an object"
  | _ =>
    let propertyKey := pathSegments.getLast!
    let parentSegments := pathSegments.dropLast
    modifyJSON jsonDoc parentSegments (objectAddVisit propertyKey newValue)

/-- A JSON patch operation, as unmarshalled from the PATCH request body
(`Patch` in `storage/document.go`). -/
structure Patch where
  op : String
  path : String
  value : Json

/-- `applyPatch` from `storage/document.go`: parse the pointer, then dispatch
on the closed op set. -/
def applyPatch (jsonDoc : Json) (patch : Patch) : Except String Json :=
  match parseJSONPointer patch.path with
  | .error _ => .error ("invalid JSON pointer: " ++ patch.path)
  | .ok pathSegments =>
    match patch.op with
    | "ArrayAdd" => applyArrayAdd jsonDoc pathSegments patch.value
    | "ArrayRemove" => applyArrayRemove jsonDoc pathSegments patch.value
    | "ObjectAdd" => applyObjectAdd jsonDoc pathSegments patch.value
    | _ => .error ("invalid operation: " ++ patch.op)

/-- Sequential application of a patch list, aborting at the first error (the
loop in `Document.PatchRequest`). -/
def applyPatches (jsonDoc : Json) : List Patch → Except String Json
  | [] => .ok jsonDoc
  | p :: rest =>
    match applyPatch jsonDoc p with
    | .error e => .error e
    | .ok j2 => applyPatches j2 rest

/-! ## Documents, collections and metadata (`storage/document.go`) -/

/-- Document metadata (`Metadata` in `storage/document.go`); timestamps are
milliseconds since the epoch. -/
structure Metadata where
  createdBy : String
  createdAt : Int
  lastModifiedBy : String
  lastModifiedAt : Int
deriving DecidableEq

mutual
/-- A `Document` (`storage/document.go`): path, content, metadata, and the
ordered map of child collections, modelled by its level-0 node list.  The raw
`Contents []byte` always holds the JSON encoding of a schema-validated value,
so it is modelled by the parsed JSON value (Go's marshal/unmarshal round trip
is the identity on it). -/
inductive Document : Type where
  | mk : String → Json → Metadata → List (String × Collection) → Document

/-- A `Collection` (the unnamed storage source file): path, name, and the
ordered map of child documents, modelled by its level-0 node list. -/
inductive Collection : Type where
  | mk : String → String → List (String × Document) → Collection
end

def Document.path : Document → String
  | .mk p _ _ _ => p

def Document.contents : Document → Json
  | .mk _ c _ _ => c

def Document.metadata : Document → Metadata
  | .mk _ _ m _ => m

def Document.collections : Document → List (String × Collection)
  | .mk _ _ _ cs => cs

def Collection.path : Collection → String
  | .mk p _ _ => p

def Collection.name : Collection → String
  | .mk _ n _ => n

def Collection.documents : Collection → List (String × Document)
  | .mk _ _ ds => ds

/-- `Metadata.Update`: stamp the last-modified fields; `time.Now().UnixMilli()`
is passed in as `now`. -/
def Metadata.update (m : Metadata) (modifiedBy : String) (now : Int) : Metadata :=
  { m with lastModifiedBy := modifiedBy, lastModifiedAt := now }

/-- The process-wide schema validator (`jsondata.Validator`): `none` means the
value is valid, `some e` is the validation error. -/
def Validator : Type := Json → Option String

/-- `Document.PatchRequest`: apply the patch operations sequentially to a copy
of the content, validate the result, and only then commit content and
metadata.  Every error path returns before any mutation, so the document is
returned unchanged exactly when the result is an error.  The unmarshalling of
`Contents` cannot fail in the model (contents are stored parsed), and the
PATCH body is passed already decoded into a `List Patch` (a malformed body is
the separate "failed to parse patch operations" error path, not modelled). -/
def Document.patchRequest (doc : Document) (patchOperations : List Patch)
    (jsonValidator : Validator) (authorName : String) (now : Int) :
    Except String Document :=
  match applyPatches doc.contents patchOperations with
  | .error e => .error e
  | .ok parsed =>
    match jsonValidator parsed with
    | some ve => .error ("validation failed after applying patches: " ++ ve)
    | none => .ok (.mk doc.path parsed (doc.metadata.update authorName now) doc.collections)

/-- `NewDocument`: validate the content against the schema, then build the
document with both metadata timestamps set to `now` and an empty child map. -/
def NewDocument (path : String) (content : Json) (createdBy : String)
    (validator : Validator) (now : Int) : Except String Document :=
  match validator content with
  | some e => .error e
  | none => .ok (.mk path content (Metadata.mk createdBy now createdBy now) [])

/-! ## The skip list, level-0 model (`skiplist/skiplist.go`)

The concurrent skip list is modelled by the level-0 linked list of its live
(fully linked, unmarked) nodes, sentinels excluded, as a `List (K × V)` in
list order; operations are given their single-threaded semantics (the
lock/validate/retry loops always succeed in one pass without interference,
and the op-counter validation pass of a range scan observes the same list). -/

namespace SkipList

/-- The outcome of a caller-supplied `UpdateCheck`.  In Go the check receives
the node's value pointer and may mutate the pointee; `ret`/`err` are the two
returned values, and `mutated` records the pointee's value when the check mutated
it through the pointer (`none` when the check left the value untouched). -/
structure CheckOutcome (V : Type) where
  ret : Option V
  err : Option String
  mutated : Option V

/-- An `UpdateCheck[K, V]` function. -/
def UpdateCheck (K V : Type) : Type := K → Option V → Bool → CheckOutcome V

/-- `SkipList.Upsert`, level-0 single-threaded semantics.  Returns the new
node list, the `updated` boolean and the error.  Faithful points mirrored from
the source: a key at or beyond a sentinel fails with "invalid key"; on a check
error the function returns `updated = true` with the error and splices
nothing; when the check returns a non-nil value the new node is spliced in
front of the successor found at level 0 — even when a node with the same key
already exists there (in which case the old node stays in the list right
behind the new one, and the source also never unlocks the old node's mutex);
when the check returns nil for an existing key the node list is unchanged and
only the pointee reflects the check's in-place mutation.  When the check
returns nil for an absent key the source would dereference a nil node pointer
(`nodeFound.mu.Unlock()` on `nil`); no check function in the repository takes
that path, and the model returns the state unchanged there. -/
def Upsert [LinearOrder K] (minKey maxKey : K) (s : List (K × V)) (key : K)
    (check : UpdateCheck K V) : List (K × V) × Bool × Option String :=
  if key ≤ minKey ∨ maxKey ≤ key then (s, false, some "invalid key")
  else
    let predecessors := s.takeWhile (fun p => decide (p.1 < key))
    let successors := s.dropWhile (fun p => decide (p.1 < key))
    match successors with
    | (k0, v0) :: rest =>
      if k0 = key then
        let oc := check key (some v0) true
        let v1 := oc.mutated.getD v0
        match oc.err with
        | some e => (predecessors ++ (k0, v1) :: rest, true, some e)
        | none =>
          match oc.ret with
          | some nv => (predecessors ++ (key, nv) :: (k0, v1) :: rest, false, none)
          | none => (predecessors ++ (k0, v1) :: rest, true, none)
      else
        let oc := check key none false
        match oc.err with
        | some e => (s, true, some e)
        | none =>
          match oc.ret with
          | some nv => (predecessors ++ (key, nv) :: successors, false, none)
          | none => (s, true, none)
    | [] =>
      let oc := check key none false
      match oc.err with
      | some e => (s, true, some e)
      | none =>
        match oc.ret with
        | some nv => (predecessors ++ (key, nv) :: successors, false, none)
        | none => (s, true, none)

/-- `SkipList.Delete`, level-0 single-threaded semantics: absent key gives
`(false, nil)`; otherwise the first node with the key is unlinked and the
result is `(true, nil)`.  The source's `Delete` never returns a non-nil
error. -/
def Delete [LinearOrder K] (s : List (K × V)) (key : K) :
    List (K × V) × Bool × Option String :=
  let predecessors := s.takeWhile (fun p => decide (p.1 < key))
  let successors := s.dropWhile (fun p => decide (p.1 < key))
  match successors with
  | (k0, _) :: rest => if k0 = key then (predecessors ++ rest, true, none) else (s, false, none)
  | [] => (s, false, none)

/-- `SkipList.Query`, level-0 single-threaded semantics: walk past the keys
below `startKey`, then collect nodes while the key is below `endKey` (live
nodes with non-nil values — all nodes of the model).  The source returns the
value pointers; the model keeps the keys paired with the values so that
per-key properties are statable. -/
def Query [LinearOrder K] (s : List (K × V)) (startKey endKey : K) : List (K × V) :=
  (s.dropWhile (fun p => decide (p.1 < startKey))).takeWhile (fun p => decide (p.1 < endKey))

/-- The per-node copying of `QueryCopies`' collection loop: apply
`copyFunction` to every collected value in order, aborting on the first copy
error. -/
def copyAll (copyFunction : V → Except String V) : List (K × V) → Except String (List (K × V))
  | [] => .ok []
  | p :: rest =>
    match copyFunction p.2 with
    | .error e => .error e
    | .ok c =>
      match copyAll copyFunction rest with
      | .error e => .error e
      | .ok cs => .ok ((p.1, c) :: cs)

/-- `SkipList.QueryCopies`: the same traversal as `Query`, with `copyFunction`
applied to each collected value; a copy error aborts the scan. -/
def QueryCopies [LinearOrder K] (s : List (K × V)) (startKey endKey : K)
    (copyFunction : V → Except String V) : Except String (List (K × V)) :=
  copyAll copyFunction (Query s startKey endKey)

/-- `SkipList.Find`, level-0 single-threaded semantics: the value of the first
node at or past `key` when its key matches. -/
def Find [LinearOrder K] (s : List (K × V)) (key : K) : Option V :=
  match s.dropWhile (fun p => decide (p.1 < key)) with
  | (k0, v0) :: _ => if k0 = key then some v0 else none
  | [] => none

end SkipList

/-! ## Check functions and per-node handlers (`storage`) -/

/-- Operation status (`status` in `storage/storage.go`): a class string and an
optional error. -/
structure Status where
  status_class : String
  err : Option String
deriving DecidableEq

/-- `PutResponse` from `storage/storage.go`. -/
structure PutResponse where
  path : String
deriving DecidableEq

/-- `PatchResponse` from `storage/storage.go`. -/
structure PatchResponse where
  uri : String
  patchFailed : Bool
  message : String
deriving DecidableEq

/-- The minimum-key sentinel used for every string-keyed skip list in the
source (`""`). -/
def minSentinel : String := ""

/-- The maximum-key sentinel used for every string-keyed skip list in the
source (`"\U0010FFFF"`). -/
def maxSentinel : String := String.mk [Char.ofNat 1114111]

/-- `DocCheckNoOverwrite`: insert the new document only when the key is
absent; an existing document is an error and nothing is touched. -/
def DocCheckNoOverwrite (newDoc : Document) : SkipList.UpdateCheck String Document :=
  fun _ _ exists_ =>
    if exists_ then SkipList.CheckOutcome.mk none (some "document already exists") none
    else SkipList.CheckOutcome.mk (some newDoc) none none

/-- `DocCheckOverwrite`: when the document exists, mutate it in place under
the node lock — last-modified time to now, contents to the new document's
contents, last-modified-by to the new document's creator — and return nil so
the skip list leaves the node in place; when absent, return the new document
for splicing. -/
def DocCheckOverwrite (newDoc : Document) (now : Int) : SkipList.UpdateCheck String Document :=
  fun _ currValue exists_ =>
    if exists_ then
      match currValue with
      | some c =>
        SkipList.CheckOutcome.mk none none
          (some (.mk c.path newDoc.contents
            { c.metadata with
                lastModifiedAt := now, lastModifiedBy := newDoc.metadata.createdBy }
            c.collections))
      | none => SkipList.CheckOutcome.mk none none none
    else SkipList.CheckOutcome.mk (some newDoc) none none

/-- `DocPatchCheck`: when the document exists, run `PatchRequest` on it in
place (the mutation happens only on success); when absent, fail. -/
def DocPatchCheck (content : List Patch) (validator : Validator) (name : String)
    (now : Int) : SkipList.UpdateCheck String Document :=
  fun _ currValue exists_ =>
    if exists_ then
      match currValue with
      | some d =>
        match d.patchRequest content validator name now with
        | .error e => SkipList.CheckOutcome.mk none (some e) none
        | .ok d2 => SkipList.CheckOutcome.mk none none (some d2)
      | none => SkipList.CheckOutcome.mk none (some "object does not exist at this path") none
    else SkipList.CheckOutcome.mk none (some "object does not exist at this path") none

/-- `CollectionCheckNoOverwrite`: insert the new collection only when absent. -/
def CollectionCheckNoOverwrite (newCol : Collection) : SkipList.UpdateCheck String Collection :=
  fun _ _ exists_ =>
    if exists_ then SkipList.CheckOutcome.mk none (some "database exists already") none
    else SkipList.CheckOutcome.mk (some newCol) none none

/-- `Collection.HandleDelete` (the unnamed storage source file): delete the
named document; a false `removed` flag reports "Does Not Exist". -/
def Collection.HandleDelete (documents : List (String × Document)) (childName : String) :
    List (String × Document) × Status :=
  let r := SkipList.Delete documents childName
  if !r.2.1 then (r.1, Status.mk "Does Not Exist" (some ("Document does not exist " ++ childName ++ " not found")))
  else (r.1, Status.mk "Deleted" none)

/-- `RootNode.HandleDelete` (`storage/storage.go` root node file): delete the
named database; a false `removed` flag reports "Does Not Exist".  The
`Database` value type itself is not under the provided sources and is
irrelevant to deletion, so the child map is kept generic in the value. -/
def RootNode.HandleDelete {V : Type} (databases : List (String × V)) (childName : String) :
    List (String × V) × Status :=
  let r := SkipList.Delete databases childName
  if !r.2.1 then (r.1, Status.mk "Does Not Exist" (some ("Database does not exist " ++ childName ++ ": Not Found")))
  else (r.1, Status.mk "Deleted" none)

/-- `Document.HandleDelete` (`storage/document.go`): delete the named child
collection — but the source inspects the error component of
`SkipList.Delete`, which is always nil, instead of the `removed` boolean. -/
def Document.HandleDelete (collections : List (String × Collection)) (childName : String) :
    List (String × Collection) × Status :=
  let r := SkipList.Delete collections childName
  match r.2.2 with
  | some _ => (r.1, Status.mk "Does Not Exist" (some ("Collection does not exist " ++ childName ++ ": not found")))
  | none => (r.1, Status.mk "Deleted" none)

/-- `Collection.HandlePut`: build the new document (validating its content),
pick the overwrite or no-overwrite check by mode, upsert, and map the outcome:
a check error with `updated = true` is "Document not overwritten", with
`updated = false` "Bad Request"; success is "Overwritten" for an in-place
update and "Created" for a fresh node. -/
def Collection.HandlePut (documents : List (String × Document)) (pathSegments : List String)
    (content : Json) (username : String) (validator : Validator) (noOverwrite : Bool)
    (now : Int) : List (String × Document) × Option PutResponse × Status :=
  let childName := pathSegments.getLastD ""
  let path := "/v1/" ++ String.intercalate "/" pathSegments
  match NewDocument path content username validator now with
  | .error e => (documents, none, Status.mk "Bad Request" (some e))
  | .ok doc =>
    let putCheck := if noOverwrite then DocCheckNoOverwrite doc else DocCheckOverwrite doc now
    let r := SkipList.Upsert minSentinel maxSentinel documents childName putCheck
    match r.2.2 with
    | some e =>
      if r.2.1 then (r.1, none, Status.mk "Document not overwritten" (some e))
      else (r.1, none, Status.mk "Bad Request" (some e))
    | none =>
      if r.2.1 then (r.1, some (PutResponse.mk path), Status.mk "Overwritten" none)
      else (r.1, some (PutResponse.mk path), Status.mk "Created" none)

/-- `Collection.HandlePatch`: upsert with the patch check and always report
the "Patched" status class with a nil error; a patch failure is only recorded
inside the response body (`patch_failed`, `message`). -/
def Collection.HandlePatch (documents : List (String × Document)) (pathSegments : List String)
    (ops : List Patch) (validator : Validator) (username : String) (now : Int) :
    List (String × Document) × PatchResponse × Status :=
  let childName := pathSegments.getLastD ""
  let uri := "/v1/" ++ String.intercalate "/" pathSegments
  let r := SkipList.Upsert minSentinel maxSentinel documents childName
    (DocPatchCheck ops validator username now)
  let response :=
    match r.2.2 with
    | some e => PatchResponse.mk uri true e
    | none => PatchResponse.mk uri false "patches applied"
  (r.1, response, Status.mk "Patched" none)

/-- `Collection.HandlePost`: generate a name, insert with the no-overwrite
check; on error enter the retry loop, whose body generates one fresh name,
retries the insert, and returns "Bad Request" if that retry also errs — so at
most two names are ever tried.  `generateRandomDocName` is modelled by the
supply `gen` of successive generated names. -/
def Collection.HandlePost (documents : List (String × Document)) (collectionName : String)
    (gen : Nat → String) (content : Json) (username : String) (validator : Validator)
    (now : Int) : List (String × Document) × Option PutResponse × Status :=
  let name0 := gen 0
  let path0 := "/v1/" ++ collectionName ++ "/" ++ name0
  match NewDocument path0 content username validator now with
  | .error e => (documents, none, Status.mk "Bad Request" (some e))
  | .ok doc0 =>
    let r0 := SkipList.Upsert minSentinel maxSentinel documents name0 (DocCheckNoOverwrite doc0)
    match r0.2.2 with
    | none => (r0.1, some (PutResponse.mk path0), Status.mk "Created" none)
    | some _ =>
      let name1 := gen 1
      let path1 := "/v1/" ++ collectionName ++ "/" ++ name1
      match NewDocument path1 content username validator now with
      | .error e => (documents, none, Status.mk "Bad Request" (some e))
      | .ok doc1 =>
        let r1 := SkipList.Upsert minSentinel maxSentinel documents name1 (DocCheckNoOverwrite doc1)
        match r1.2.2 with
        | some e => (r1.1, none, Status.mk "Bad Request" (some e))
        | none => (r1.1, some (PutResponse.mk path1), Status.mk "Created" none)

/-! ## Request validation and status codes (`handlers`) -/

/-- `GetSupportedRequests` from the handlers package. -/
def GetSupportedRequests (storage_type : String) : List String :=
  if storage_type = "Database" then ["GET", "PUT", "POST", "DELETE"]
  else if storage_type = "Document" then ["GET", "PUT", "DELETE", "PATCH"]
  else if storage_type = "Collection" then ["GET", "PUT", "DELETE", "POST"]
  else []

/-- `GetStorageType`: classify the resource kind by path depth. -/
def GetStorageType (path_length : Nat) : String :=
  if path_length = 1 then "Database"
  else if path_length % 2 = 0 then "Document"
  else "Collection"

/-- `GetStatusCode`: map a status class to the HTTP code and success flag. -/
def GetStatusCode (status_class : String) : Nat × Bool :=
  if status_class = "Created" then (201, true)
  else if status_class = "Get" then (200, true)
  else if status_class = "Bad Request" then (400, false)
  else if status_class = "Overwritten" then (200, true)
  else if status_class = "Does Not Exist" then (404, false)
  else if status_class = "Internal Error" then (400, false)
  else if status_class = "Deleted" then (204, true)
  else if status_class = "Patched" then (200, true)
  else if status_class = "Document not overwritten" then (412, false)
  else (400, false)

/-- `RequestValid` from the handlers package, verbatim condition structure. -/
def RequestValid (method storage_type : String) (slashEnd interval overwrite : Bool) : Bool :=
  if !(GetSupportedRequests storage_type).contains method then false
  else if storage_type = "Document" && (slashEnd || interval) then false
  else if storage_type = "Collection" && (!slashEnd || overwrite) then false
  else if storage_type = "Database" &&
      ((slashEnd && (method = "PUT" || method = "DELETE")) || overwrite) then false
  else if storage_type = "Database" &&
      ((!slashEnd && (method = "GET" || method = "POST")) || overwrite) then false
  else true

/-- `HandleStorage` rejects a request that fails `RequestValid` with HTTP 400
before touching storage; otherwise validation imposes no code. -/
def validationCode (method storage_type : String) (slashEnd interval overwrite : Bool) :
    Option Nat :=
  if RequestValid method storage_type slashEnd interval overwrite then none else some 400

/-! ## Subscription fabric (`subscription`) -/

/-- A subscriber channel: a buffered Go channel of formatted messages, with
its capacity and current buffer contents. -/
structure SubChan where
  cap : Nat
  buf : List String
deriving DecidableEq

/-- A non-blocking send (`select` with `default`): append when the buffer has
room, otherwise fail and leave the channel untouched. -/
def sendNB (c : SubChan) (msg : String) : SubChan × Bool :=
  if c.buf.length < c.cap then (SubChan.mk c.cap (c.buf ++ [msg]), true) else (c, false)

/-- The SSE message built by `Dispatch`. -/
def sseMessage (eventType : String) (eventData : String) (nowNano : Int) : String :=
  "event: " ++ eventType ++ "\n" ++ "data: " ++ eventData ++ "\n" ++
    "id: " ++ toString nowNano ++ "\n\n"

/-- Remove a key from the channel map (Go's `delete(h.clientChans, id)`). -/
def eraseKey {α : Type} (m : List (String × α)) (key : String) : List (String × α) :=
  m.filter (fun p => p.1 ≠ key)

/-- Replace the value stored at a present key. -/
def setVal {α : Type} (m : List (String × α)) (key : String) (v : α) : List (String × α) :=
  m.map (fun p => if p.1 = key then (p.1, v) else p)

/-- `SubscriberHandler.Dispatch`: a missing or empty subscriber list is itself
an error ("no clients to notify"); otherwise the SSE message is sent
non-blockingly to every channel in order, a full channel counting as a failed
dispatch; after the sends, a `delete` event with `sameLevel` drops the map
entry; the result is an error iff at least one send failed.  Go channels are
reference values whose buffers live outside the map, so the model threads the
updated channel states back through the map entry. -/
def Dispatch (clientChans : List (String × List SubChan)) (resourceID : String)
    (eventData : String) (sameLevel : Bool) (eventType : String) (nowNano : Int) :
    List (String × List SubChan) × Option String :=
  match findVal clientChans resourceID with
  | none => (clientChans, some "no clients to notify")
  | some subscribers =>
    if subscribers.length = 0 then (clientChans, some "no clients to notify")
    else
      let message := sseMessage eventType eventData nowNano
      let sent := subscribers.map (fun c => sendNB c message)
      let subscribers2 := sent.map Prod.fst
      let failed := (sent.filter (fun r => !r.2)).length
      let m2 :=
        if eventType = "delete" && sameLevel then eraseKey clientChans resourceID
        else setVal clientChans resourceID subscribers2
      (m2, if 0 < failed then some "message dispatch failed to some clients" else none)

/-! ## Shared helper lemmas -/

theorem split_at_key {K V : Type} [LinearOrder K] (before rest : List (K × V)) (k : K) (v : V)
    (h : ∀ p ∈ before, p.1 < k) :
    (before ++ (k, v) :: rest).takeWhile (fun p => decide (p.1 < k)) = before ∧
    (before ++ (k, v) :: rest).dropWhile (fun p => decide (p.1 < k)) = (k, v) :: rest := by
  induction before with
  | nil =>
    constructor
    · simp [List.takeWhile_cons, lt_irrefl]
    · simp [List.dropWhile_cons, lt_irrefl]
  | cons q qs ih =>
    have hq : q.1 < k := h q (List.mem_cons_self _ _)
    have ih2 := ih (fun p hp => h p (List.mem_cons_of_mem _ hp))
    constructor
    · simpa [List.takeWhile_cons, hq] using ih2.1
    · simpa [List.dropWhile_cons, hq] using ih2.2

theorem findVal_setVal {α : Type} (m : List (String × α)) (key : String) (v : α)
    (h : (findVal m key).isSome) : findVal (setVal m key v) key = some v := by
  induction m with
  | nil => simp [findVal] at h
  | cons q rest ih =>
    obtain ⟨k1, v1⟩ := q
    by_cases hk : k1 = key
    · subst hk
      simp only [setVal, List.map_cons]
      simp [findVal]
    · simp only [findVal, if_neg hk] at h
      simp only [setVal, List.map_cons]
      rw [if_neg hk]
      simpa [findVal, hk, setVal] using ih h

theorem findVal_eraseKey {α : Type} (m : List (String × α)) (key : String) :
    findVal (eraseKey m key) key = none := by
  induction m with
  | nil => rfl
  | cons q rest ih =>
    obtain ⟨k1, v1⟩ := q
    by_cases hk : k1 = key
    · simpa [eraseKey, hk] using ih
    · simpa [eraseKey, findVal, hk] using ih

theorem findVal_replaceVal (fields : List (String × Json)) (key : String) (c : Json)
    (h : (findVal fields key).isSome) : findVal (replaceVal fields key c) key = some c := by
  induction fields with
  | nil => simp [findVal] at h
  | cons q rest ih =>
    obtain ⟨k1, v1⟩ := q
    by_cases hk : k1 = key
    · subst hk
      simp only [replaceVal, List.map_cons]
      simp [findVal]
    · simp only [findVal, if_neg hk] at h
      simp only [replaceVal, List.map_cons]
      rw [if_neg hk]
      simpa [findVal, hk, replaceVal] using ih h

theorem replaceVal_replaceVal (fields : List (String × Json)) (key : String) (c : Json) :
    replaceVal (replaceVal fields key c) key c = replaceVal fields key c := by
  simp only [replaceVal, List.map_map]
  apply List.map_congr_left
  intro p _
  by_cases hp : p.1 = key <;> simp [hp]

theorem jsonContains_append (a b : List Json) (v : Json) :
    jsonContains (a ++ b) v = (jsonContains a v || jsonContains b v) := by
  induction a with
  | nil => simp [jsonContains]
  | cons x xs ih => simp [jsonContains, ih, Bool.or_assoc]

theorem arrAddList_idem (a : List Json) (v : Json) (hv : jsonEq v v = true) :
    arrAddList (arrAddList a v) v = arrAddList a v := by
  by_cases h : jsonContains a v = true
  · simp [arrAddList, h]
  · have h2 : jsonContains (a ++ [v]) v = true := by
      simp [jsonContains_append, jsonContains, hv]
    simp only [arrAddList, h, if_neg, Bool.not_eq_true] at *
    simp [arrAddList, h, h2]

theorem arrRemoveList_idem (a : List Json) (v : Json) :
    arrRemoveList (arrRemoveList a v) v = arrRemoveList a v := by
  simp [arrRemoveList, List.filter_filter]

/-- `modifyJSON` with an idempotent target transformation is idempotent: the
navigator keeps every object key, so a second run reaches the same target. -/
theorem modifyJSON_idem (f : Json → Except String Json)
    (hf : ∀ x y, f x = .ok y → f y = .ok y) :
    ∀ (segs : List String) (j j2 : Json),
      modifyJSON j segs f = .ok j2 → modifyJSON j2 segs f = .ok j2 := by
  intro segs
  induction segs with
  | nil => intro j j2 h; exact hf j j2 h
  | cons seg rest ih =>
    intro j j2 h
    match j with
    | .obj fields =>
      cases hfv : findVal fields seg with
      | none => simp [modifyJSON, hfv] at h
      | some child =>
        cases hrec : modifyJSON child rest f with
        | error e => simp [modifyJSON, hfv, hrec] at h
        | ok child2 =>
          simp only [modifyJSON, hfv, hrec, Except.ok.injEq] at h
          subst h
          have h1 : findVal (replaceVal fields seg child2) seg = some child2 :=
            findVal_replaceVal fields seg child2 (by simp [hfv])
          simp only [modifyJSON, h1, ih child child2 hrec, replaceVal_replaceVal]
    | .arr xs => simp [modifyJSON] at h
    | .str s => simp [modifyJSON] at h
    | .num n => simp [modifyJSON] at h
    | .bool b => simp [modifyJSON] at h
    | .null => simp [modifyJSON] at h

/-- Evaluation of `Upsert` at a present key whose check returns an error: the
node list comes back with only the check's own pointee effect (none when the
check did not mutate), `updated = true`, and the check's error verbatim. -/
theorem Upsert_found_err {K V : Type} [LinearOrder K] (minK maxK : K)
    (before rest : List (K × V)) (k : K) (v : V) (check : SkipList.UpdateCheck K V)
    (ret mtd : Option V) (e : String)
    (hk : ¬(k ≤ minK ∨ maxK ≤ k)) (hb : ∀ p ∈ before, p.1 < k)
    (hc : check k (some v) true = SkipList.CheckOutcome.mk ret (some e) mtd) :
    SkipList.Upsert minK maxK (before ++ (k, v) :: rest) k check =
      (before ++ (k, mtd.getD v) :: rest, true, some e) := by
  have hsplit := split_at_key before rest k v hb
  unfold SkipList.Upsert
  rw [if_neg hk]
  simp only [hsplit.1, hsplit.2, if_pos rfl, hc, if_true]

/-- Evaluation of `Upsert` at a present key whose check returns a non-nil new
value: the new node is spliced in front of the old one, which stays in the
list, and `updated = false`. -/
theorem Upsert_found_ret {K V : Type} [LinearOrder K] (minK maxK : K)
    (before rest : List (K × V)) (k : K) (v nv : V) (check : SkipList.UpdateCheck K V)
    (mtd : Option V)
    (hk : ¬(k ≤ minK ∨ maxK ≤ k)) (hb : ∀ p ∈ before, p.1 < k)
    (hc : check k (some v) true = SkipList.CheckOutcome.mk (some nv) none mtd) :
    SkipList.Upsert minK maxK (before ++ (k, v) :: rest) k check =
      (before ++ (k, nv) :: (k, mtd.getD v) :: rest, false, none) := by
  have hsplit := split_at_key before rest k v hb
  unfold SkipList.Upsert
  rw [if_neg hk]
  simp only [hsplit.1, hsplit.2, if_pos rfl, hc, if_true]

/-- Evaluation of `Upsert` at a present key whose check returns nil without an
error (in-place update): the node stays where it is, carrying the check's
mutation, and `updated = true`. -/
theorem Upsert_found_inplace {K V : Type} [LinearOrder K] (minK maxK : K)
    (before rest : List (K × V)) (k : K) (v : V) (check : SkipList.UpdateCheck K V)
    (mtd : Option V)
    (hk : ¬(k ≤ minK ∨ maxK ≤ k)) (hb : ∀ p ∈ before, p.1 < k)
    (hc : check k (some v) true = SkipList.CheckOutcome.mk none none mtd) :
    SkipList.Upsert minK maxK (before ++ (k, v) :: rest) k check =
      (before ++ (k, mtd.getD v) :: rest, true, none) := by
  have hsplit := split_at_key before rest k v hb
  unfold SkipList.Upsert
  rw [if_neg hk]
  simp only [hsplit.1, hsplit.2, if_pos rfl, hc, if_true]

/-- Evaluation of `Upsert` when the check reports an error without mutating
the pointee: the node list is returned unchanged — nothing is spliced and no
value is modified by `Upsert` itself — together with `updated = true` and the
check's error verbatim.  The check's inputs are exactly the located state
(`Find`'s view of the key). -/
theorem Upsert_check_error {K V : Type} [LinearOrder K] (minK maxK : K)
    (s : List (K × V)) (k : K) (check : SkipList.UpdateCheck K V) (e : String)
    (hk : ¬(k ≤ minK ∨ maxK ≤ k))
    (hce : (check k (SkipList.Find s k) (SkipList.Find s k).isSome).err = some e)
    (hcm : (check k (SkipList.Find s k) (SkipList.Find s k).isSome).mutated = none) :
    SkipList.Upsert minK maxK s k check = (s, true, some e) := by
  have happ : s.takeWhile (fun p => decide (p.1 < k)) ++
      s.dropWhile (fun p => decide (p.1 < k)) = s :=
    List.takeWhile_append_dropWhile (p := fun p => decide (p.1 < k)) (l := s)
  unfold SkipList.Upsert
  rw [if_neg hk]
  cases hafter : s.dropWhile (fun p => decide (p.1 < k)) with
  | nil =>
    simp only [SkipList.Find, hafter, Option.isSome_none] at hce
    cases hco : check k none false with
    | mk ret err mtd =>
      rw [hco] at hce
      simp only at hce
      subst hce
      simp only [hafter, hco]
  | cons hd tl =>
    obtain ⟨k0, v0⟩ := hd
    by_cases hk0 : k0 = k
    · subst hk0
      simp only [SkipList.Find, hafter, if_pos rfl, if_true, Option.isSome_some] at hce hcm
      cases hco : check k0 (some v0) true with
      | mk ret err mtd =>
        rw [hco] at hce hcm
        simp only at hce hcm
        subst hce
        subst hcm
        rw [hafter] at happ
        simp only [hafter, hco, if_pos rfl, if_true, Option.getD_none, happ]
    · simp only [SkipList.Find, hafter, if_neg hk0, Option.isSome_none] at hce
      cases hco : check k none false with
      | mk ret err mtd =>
        rw [hco] at hce
        simp only at hce
        subst hce
        simp only [hafter, if_neg hk0, hco]

/-- The conflict branch of `Collection.HandlePut` in no-overwrite mode: an
existing document makes `DocCheckNoOverwrite` error, `Upsert` reports
`updated = true` with the error, and the handler maps that pair to the
"Document not overwritten" status class — not to "Bad Request". -/
theorem HandlePut_noOverwrite_conflict (before rest : List (String × Document))
    (d : Document) (name : String) (pathSegments : List String) (content : Json)
    (username : String) (validator : Validator) (now : Int)
    (hlast : pathSegments.getLastD "" = name)
    (hkey : ¬(name ≤ minSentinel ∨ maxSentinel ≤ name))
    (hb : ∀ p ∈ before, p.1 < name)
    (hval : validator content = none) :
    Collection.HandlePut (before ++ (name, d) :: rest) pathSegments content username
        validator true now =
      (before ++ (name, d) :: rest, none,
        Status.mk "Document not overwritten" (some "document already exists")) := by
  have hup := Upsert_found_err minSentinel maxSentinel before rest name d
    (DocCheckNoOverwrite (.mk ("/v1/" ++ String.intercalate "/" pathSegments) content
      (Metadata.mk username now username now) []))
    none none "document already exists" hkey hb rfl
  simp only [Collection.HandlePut, NewDocument, hval, hlast, if_true, hup,
    Option.getD_none]

/-- C10: when the caller's check function returns a non-nil error, `Upsert`
returns `updated = true` together with that exact error, and the node list is
unchanged (nothing spliced, no value modified by `Upsert` itself — the check
not having mutated the pointee); and the HTTP layer maps a no-overwrite PUT on
an existing document, which errors through exactly this path, to the
"Document not overwritten" (412) status class rather than "Bad Request"
(400). -/
theorem c10_upsert_error_propagation_and_412 :
    (∀ (K V : Type) [LinearOrder K] (minK maxK : K) (s : List (K × V)) (k : K)
        (check : SkipList.UpdateCheck K V) (e : String),
      ¬(k ≤ minK ∨ maxK ≤ k) →
      (check k (SkipList.Find s k) (SkipList.Find s k).isSome).err = some e →
      (check k (SkipList.Find s k) (SkipList.Find s k).isSome).mutated = none →
      SkipList.Upsert minK maxK s k check = (s, true, some e)) ∧
    (∀ (before rest : List (String × Document)) (d : Document) (name : String)
        (pathSegments : List String) (content : Json) (username : String)
        (validator : Validator) (now : Int),
      pathSegments.getLastD "" = name →
      ¬(name ≤ minSentinel ∨ maxSentinel ≤ name) →
      (∀ p ∈ before, p.1 < name) →
      validator content = none →
      Collection.HandlePut (before ++ (name, d) :: rest) pathSegments content username
          validator true now =
        (before ++ (name, d) :: rest, none,
          Status.mk "Document not overwritten" (some "document already exists")) ∧
      GetStatusCode "Document not overwritten" = (412, false) ∧
      GetStatusCode "Document not overwritten" ≠ GetStatusCode "Bad Request") := by
  constructor
  · intro K V instK minK maxK s k check e hk hce hcm
    exact Upsert_check_error minK maxK s k check e hk hce hcm
  · intro before rest d name pathSegments content username validator now hlast hkey hb hval
    refine ⟨HandlePut_noOverwrite_conflict before rest d name pathSegments content
      username validator now hlast hkey hb hval, by decide, by decide⟩

/-- Witness for C10: a concrete always-erring check on a Nat-keyed list leaves
the list unchanged and propagates the error with `updated = true`; a concrete
no-overwrite PUT on the existing document "doc" yields the 412 class. -/
theorem c10_witness :
    SkipList.Upsert (K := Nat) (V := Nat) 0 100 [(5, 10)] 5
      (fun _ _ _ => SkipList.CheckOutcome.mk none (some "boom") none) =
      ([(5, 10)], true, some "boom") ∧
    Collection.HandlePut
        [("doc", Document.mk "/v1/db/doc" (.obj []) (Metadata.mk "u" 0 "u" 0) [])]
        ["db", "doc"] (.obj []) "bob" (fun _ => none) true 9 =
      ([("doc", Document.mk "/v1/db/doc" (.obj []) (Metadata.mk "u" 0 "u" 0) [])], none,
        Status.mk "Document not overwritten" (some "document already exists")) := by
  constructor
  · exact c10_upsert_error_propagation_and_412.1 Nat Nat 0 100 [(5, 10)] 5
      (fun _ _ _ => SkipList.CheckOutcome.mk none (some "boom") none) "boom"
      (by decide) (by decide) (by decide)
  · have h := (c10_upsert_error_propagation_and_412.2
      [] [] (Document.mk "/v1/db/doc" (.obj []) (Metadata.mk "u" 0 "u" 0) [])
      "doc" ["db", "doc"] (.obj []) "bob" (fun _ => none) 9
      rfl
      (by
        rintro (h1 | h2)
        · exact absurd (String.le_iff_toList_le.mp h1) (by decide)
        · exact absurd (String.le_iff_toList_le.mp h2) (by decide))
      (by intro p hp; cases hp)
      rfl).1
    simpa using h

/-- C1: the spec says that `Upsert` on a present key whose check returns a
non-nil new value logically replaces the existing node's value, keeping at
most one node with that key.  The source instead splices a brand-new node with
the same key in front of the still-present old node: on the one-node list
`[(5, 10)]`, an upsert at key 5 whose check returns the new value 11 produces
two live nodes with key 5 (and reports `updated = false` as if a fresh key had
been inserted). -/
theorem c1_upsert_present_nonnil_splices_duplicate :
    SkipList.Upsert (K := Nat) (V := Nat) 0 100 [(5, 10)] 5
      (fun _ _ _ => SkipList.CheckOutcome.mk (some 11) none none) =
      ([(5, 11), (5, 10)], false, none) ∧
    ((SkipList.Upsert (K := Nat) (V := Nat) 0 100 [(5, 10)] 5
      (fun _ _ _ => SkipList.CheckOutcome.mk (some 11) none none)).1.filter
        (fun p => p.1 == 5)).length = 2 := by
  constructor
  · rfl
  · rfl

/-- C3: DELETE of a named child answers 204 on success and 404 when the child
is absent — true at the root (databases) and at collections (documents), but
`Document.HandleDelete` tests the error component of `SkipList.Delete`, which
is always nil, instead of the removed flag: deleting an absent collection
child of a document reports "Deleted" (204) even though nothing was removed
(the skip list returned `removed = false`). -/
theorem c3_document_delete_absent_child_reports_deleted :
    Document.HandleDelete ([] : List (String × Collection)) "coll" =
      ([], Status.mk "Deleted" none) ∧
    GetStatusCode "Deleted" = (204, true) ∧
    SkipList.Delete ([] : List (String × Collection)) "coll" = ([], false, none) ∧
    Collection.HandleDelete ([] : List (String × Document)) "doc" =
      ([], Status.mk "Does Not Exist" (some "Document does not exist doc not found")) ∧
    GetStatusCode "Does Not Exist" = (404, false) ∧
    RootNode.HandleDelete ([] : List (String × Collection)) "db" =
      ([], Status.mk "Does Not Exist" (some "Database does not exist db: Not Found")) := by
  refine ⟨rfl, by decide, rfl, rfl, by decide, rfl⟩

/-- C8: the claim (and the source's own comment "Keep trying to insert with
new doc name until doc name is unique") says POST retries name generation
until the insert succeeds.  The retry loop's body returns "Bad Request" as
soon as its own upsert errs, so only two generated names are ever tried: with
documents "a" and "b" present and a name supply yielding "a", "b", "c", …,
POST answers 400 "Bad Request" even though the very next name "c" is free. -/
theorem c8_post_gives_up_after_one_retry :
    Collection.HandlePost
        [("a", Document.mk "/v1/db/a" (.obj []) (Metadata.mk "u" 0 "u" 0) []),
         ("b", Document.mk "/v1/db/b" (.obj []) (Metadata.mk "u" 0 "u" 0) [])]
        "db" (fun n => if n = 0 then "a" else if n = 1 then "b" else "c")
        (.obj []) "u" (fun _ => none) 5 =
      ([("a", Document.mk "/v1/db/a" (.obj []) (Metadata.mk "u" 0 "u" 0) []),
        ("b", Document.mk "/v1/db/b" (.obj []) (Metadata.mk "u" 0 "u" 0) [])], none,
        Status.mk "Bad Request" (some "document already exists")) ∧
    findVal
      [("a", Document.mk "/v1/db/a" (.obj []) (Metadata.mk "u" 0 "u" 0) []),
       ("b", Document.mk "/v1/db/b" (.obj []) (Metadata.mk "u" 0 "u" 0) [])]
      ((fun n => if n = 0 then "a" else if n = 1 then "b" else "c") 2) = none := by
  have hka : ¬(("a" : String) ≤ minSentinel ∨ maxSentinel ≤ "a") := by
    rintro (h | h) <;> exact absurd (String.le_iff_toList_le.mp h) (by decide)
  have hkb : ¬(("b" : String) ≤ minSentinel ∨ maxSentinel ≤ "b") := by
    rintro (h | h) <;> exact absurd (String.le_iff_toList_le.mp h) (by decide)
  have hab : ("a" : String) < "b" := String.lt_iff_toList_lt.mpr (by decide)
  have hU0 : SkipList.Upsert minSentinel maxSentinel
      [("a", Document.mk "/v1/db/a" (.obj []) (Metadata.mk "u" 0 "u" 0) []),
       ("b", Document.mk "/v1/db/b" (.obj []) (Metadata.mk "u" 0 "u" 0) [])] "a"
      (DocCheckNoOverwrite (Document.mk ("/v1/" ++ "db" ++ "/" ++ "a") (.obj [])
        (Metadata.mk "u" 5 "u" 5) [])) =
      ([("a", Document.mk "/v1/db/a" (.obj []) (Metadata.mk "u" 0 "u" 0) []),
        ("b", Document.mk "/v1/db/b" (.obj []) (Metadata.mk "u" 0 "u" 0) [])], true,
        some "document already exists") := by
    simpa using Upsert_found_err minSentinel maxSentinel []
      [("b", Document.mk "/v1/db/b" (.obj []) (Metadata.mk "u" 0 "u" 0) [])] "a"
      (Document.mk "/v1/db/a" (.obj []) (Metadata.mk "u" 0 "u" 0) [])
      (DocCheckNoOverwrite (Document.mk ("/v1/" ++ "db" ++ "/" ++ "a") (.obj [])
        (Metadata.mk "u" 5 "u" 5) []))
      none none "document already exists" hka (by intro p hp; cases hp) rfl
  have hU1 : SkipList.Upsert minSentinel maxSentinel
      [("a", Document.mk "/v1/db/a" (.obj []) (Metadata.mk "u" 0 "u" 0) []),
       ("b", Document.mk "/v1/db/b" (.obj []) (Metadata.mk "u" 0 "u" 0) [])] "b"
      (DocCheckNoOverwrite (Document.mk ("/v1/" ++ "db" ++ "/" ++ "b") (.obj [])
        (Metadata.mk "u" 5 "u" 5) [])) =
      ([("a", Document.mk "/v1/db/a" (.obj []) (Metadata.mk "u" 0 "u" 0) []),
        ("b", Document.mk "/v1/db/b" (.obj []) (Metadata.mk "u" 0 "u" 0) [])], true,
        some "document already exists") := by
    simpa using Upsert_found_err minSentinel maxSentinel
      [("a", Document.mk "/v1/db/a" (.obj []) (Metadata.mk "u" 0 "u" 0) [])] [] "b"
      (Document.mk "/v1/db/b" (.obj []) (Metadata.mk "u" 0 "u" 0) [])
      (DocCheckNoOverwrite (Document.mk ("/v1/" ++ "db" ++ "/" ++ "b") (.obj [])
        (Metadata.mk "u" 5 "u" 5) []))
      none none "document already exists" hkb
      (by
        intro p hp
        rcases List.mem_singleton.mp hp with rfl
        exact hab) rfl
  refine ⟨?_, rfl⟩
  simp only [Collection.HandlePost, NewDocument]
  norm_num
  simp only [hU0, hU1]

/-- On a key-sorted node list, every node surviving the walk past the keys
below `lo` has a key at least `lo`. -/
theorem dropWhile_lower_bound {K V : Type} [LinearOrder K] (s : List (K × V)) (lo : K)
    (hs : s.Pairwise (fun a b => a.1 < b.1)) :
    ∀ p ∈ s.dropWhile (fun p => decide (p.1 < lo)), lo ≤ p.1 := by
  induction s with
  | nil => intro p hp; simp [List.dropWhile] at hp
  | cons q rest ih =>
    rw [List.pairwise_cons] at hs
    intro p hp
    rw [List.dropWhile_cons] at hp
    by_cases hq : q.1 < lo
    · rw [if_pos (by simpa using hq)] at hp
      exact ih hs.2 p hp
    · rw [if_neg (by simpa using hq)] at hp
      rcases List.mem_cons.mp hp with rfl | hmem
      · exact not_lt.mp hq
      · exact le_of_lt (lt_of_le_of_lt (not_lt.mp hq) (hs.1 p hmem))

/-- `copyAll` preserves the keys of the collected nodes, in order. -/
theorem copyAll_keys {K V : Type} (copyFunction : V → Except String V) :
    ∀ (l res : List (K × V)), SkipList.copyAll copyFunction l = .ok res →
      res.map Prod.fst = l.map Prod.fst := by
  intro l
  induction l with
  | nil => intro res h; simp only [SkipList.copyAll, Except.ok.injEq] at h; subst h; rfl
  | cons p rest ih =>
    intro res h
    simp only [SkipList.copyAll] at h
    cases hc : copyFunction p.2 with
    | error e => rw [hc] at h; cases h
    | ok c =>
      rw [hc] at h
      cases hr : SkipList.copyAll copyFunction rest with
      | error e => rw [hr] at h; cases h
      | ok cs =>
        rw [hr] at h
        simp only [Except.ok.injEq] at h
        subst h
        simp [ih cs hr]

/-- C4: every range scan — `Query(lo, hi)` directly, and `QueryCopies(lo, hi,
copyFn)` through its key-preserving per-value copies — returns nodes whose
keys are strictly ascending and lie in the half-open interval `[lo, hi)`
(left-inclusive, right-exclusive), provided the node list satisfies the skip
list's key-sortedness invariant. -/
theorem c4_range_scan_keys_ascending_in_interval {K V : Type} [LinearOrder K]
    (s : List (K × V)) (lo hi : K) (copyFn : V → Except String V)
    (hs : s.Pairwise (fun a b => a.1 < b.1)) :
    ((SkipList.Query s lo hi).Pairwise (fun a b => a.1 < b.1) ∧
      ∀ p ∈ SkipList.Query s lo hi, lo ≤ p.1 ∧ p.1 < hi) ∧
    (∀ res, SkipList.QueryCopies s lo hi copyFn = .ok res →
      res.map Prod.fst = (SkipList.Query s lo hi).map Prod.fst ∧
      res.Pairwise (fun a b => a.1 < b.1) ∧ ∀ p ∈ res, lo ≤ p.1 ∧ p.1 < hi) := by
  have hsub : List.Sublist (SkipList.Query s lo hi) s :=
    (List.takeWhile_sublist _).trans (List.dropWhile_sublist _)
  have hpair : (SkipList.Query s lo hi).Pairwise (fun a b => a.1 < b.1) :=
    hs.sublist hsub
  have hmem : ∀ p ∈ SkipList.Query s lo hi, lo ≤ p.1 ∧ p.1 < hi := by
    intro p hp
    constructor
    · exact dropWhile_lower_bound s lo hs p ((List.takeWhile_sublist _).subset hp)
    · simpa using List.mem_takeWhile_imp hp
  refine ⟨⟨hpair, hmem⟩, ?_⟩
  intro res hres
  have hkeys : res.map Prod.fst = (SkipList.Query s lo hi).map Prod.fst :=
    copyAll_keys copyFn _ res hres
  constructor
  · exact hkeys
  constructor
  · have : (res.map Prod.fst).Pairwise (fun a b => a < b) := by
      rw [hkeys]
      exact List.Pairwise.map _ (fun a b h => h) hpair
    have := (List.pairwise_map).mp this
    exact this
  · intro p hp
    have : p.1 ∈ (SkipList.Query s lo hi).map Prod.fst := by
      rw [← hkeys]
      exact List.mem_map_of_mem _ hp
    rcases List.mem_map.mp this with ⟨q, hq, hqe⟩
    rw [← hqe]
    exact hmem q hq

/-- Witness for C4: a concrete sorted three-node list scanned over `[2, 3)`
returns exactly the node with key 2. -/
theorem c4_witness :
    ([((1 : Nat), (10 : Nat)), (2, 20), (3, 30)].Pairwise
      (fun a b => a.1 < b.1)) ∧
    (SkipList.Query [((1 : Nat), (10 : Nat)), (2, 20), (3, 30)] 2 3).Pairwise
      (fun a b => a.1 < b.1) ∧
    (∀ p ∈ SkipList.Query [((1 : Nat), (10 : Nat)), (2, 20), (3, 30)] 2 3,
      2 ≤ p.1 ∧ p.1 < 3) := by
  have h := c4_range_scan_keys_ascending_in_interval
    [((1 : Nat), (10 : Nat)), (2, 20), (3, 30)] 2 3 (fun v => .ok v) (by decide)
  exact ⟨by decide, h.1.1, h.1.2⟩

/-- C9 counterexample: `Dispatch` on a path with no registered subscriber
list returns the "no clients to notify" error even though no non-blocking
send was attempted, let alone failed — refuting "it returns an error iff some
non-blocking send to a subscriber channel failed". -/
theorem c9_dispatch_errors_without_failed_send :
    Dispatch [] "p" "d" false "update" 0 = ([], some "no clients to notify") ∧
    findVal ([] : List (String × List SubChan)) "p" = none :=
  ⟨rfl, rfl⟩

/-- A non-blocking send reports failure exactly on a full channel. -/
theorem sendNB_snd_eq_false (c : SubChan) (msg : String) :
    (sendNB c msg).2 = false ↔ c.cap ≤ c.buf.length := by
  unfold sendNB
  by_cases h : c.buf.length < c.cap
  · simp [h, not_le.mpr h]
  · simp [h, not_lt.mp h]

/-- C9 (amended): `Dispatch` returns an error iff the subscriber list at the
path is absent or empty (the early "no clients to notify" return, with no
sends attempted and no purge) or some non-blocking send to a subscriber
channel failed; a full channel counts as a failed dispatch but the subscriber
channel stays in the list whenever the entry is not purged; and when the event
type is "delete" and `sameLevel` holds (with a non-empty list), the map entry
for the path is dropped. -/
theorem c9_dispatch_error_and_purge_semantics :
    ∀ (m : List (String × List SubChan)) (rid eventData : String) (sameLevel : Bool)
      (eventType : String) (nowNano : Int),
    (findVal m rid = none →
      Dispatch m rid eventData sameLevel eventType nowNano =
        (m, some "no clients to notify")) ∧
    (∀ subs, findVal m rid = some subs → subs ≠ [] →
      ((Dispatch m rid eventData sameLevel eventType nowNano).2.isSome = true ↔
        ∃ c ∈ subs, c.cap ≤ c.buf.length) ∧
      (eventType = "delete" ∧ sameLevel = true →
        findVal (Dispatch m rid eventData sameLevel eventType nowNano).1 rid = none) ∧
      (¬(eventType = "delete" ∧ sameLevel = true) →
        ∃ subs2,
          findVal (Dispatch m rid eventData sameLevel eventType nowNano).1 rid =
            some subs2 ∧
          subs2.length = subs.length ∧
          ∀ c ∈ subs, c.cap ≤ c.buf.length → c ∈ subs2)) := by
  intro m rid eventData sameLevel eventType nowNano
  constructor
  · intro hnone
    unfold Dispatch
    rw [hnone]
  · intro subs hfind hne
    have hlen : ¬(subs.length = 0) := fun h => hne (List.length_eq_zero.mp h)
    have hdis : Dispatch m rid eventData sameLevel eventType nowNano =
        (if (eventType = "delete") && sameLevel then eraseKey m rid
         else setVal m rid
           (List.map (fun c => (sendNB c (sseMessage eventType eventData nowNano)).1) subs),
         if 0 < (List.filter (fun r => !r.2)
             (subs.map (fun c => sendNB c (sseMessage eventType eventData nowNano)))).length
         then some "message dispatch failed to some clients" else none) := by
      unfold Dispatch
      rw [hfind]
      simp only [if_neg hlen, List.map_map]
      rfl
    refine ⟨?_, ?_, ?_⟩
    · rw [hdis]
      simp only
      by_cases hf : 0 < (List.filter (fun r => !r.2)
          (subs.map (fun c => sendNB c (sseMessage eventType eventData nowNano)))).length
      · rw [if_pos hf]
        simp only [Option.isSome_some, true_iff]
        rw [List.length_pos] at hf
        rcases List.exists_mem_of_ne_nil _ hf with ⟨r, hr⟩
        have hr2 := List.mem_filter.mp hr
        rcases List.mem_map.mp hr2.1 with ⟨c, hc, hce⟩
        refine ⟨c, hc, ?_⟩
        rw [← sendNB_snd_eq_false c (sseMessage eventType eventData nowNano)]
        rw [hce]
        simpa using hr2.2
      · rw [if_neg hf]
        simp only [Option.isSome_none, Bool.false_eq_true, false_iff]
        rintro ⟨c, hc, hfull⟩
        apply hf
        rw [List.length_pos]
        intro hnil
        have := List.filter_eq_nil_iff.mp hnil
        have hmem : sendNB c (sseMessage eventType eventData nowNano) ∈
            subs.map (fun c => sendNB c (sseMessage eventType eventData nowNano)) :=
          List.mem_map_of_mem _ hc
        have hkeep := this _ hmem
        have hsnd : (sendNB c (sseMessage eventType eventData nowNano)).2 = false :=
          (sendNB_snd_eq_false c _).mpr hfull
        rw [hsnd] at hkeep
        simp at hkeep
    · rintro ⟨hdel, hsame⟩
      rw [hdis]
      subst hdel
      subst hsame
      simp [findVal_eraseKey]
    · intro hnot
      rw [hdis]
      have hcond : ((eventType = "delete") && sameLevel) = false := by
        by_cases h1 : eventType = "delete"
        · have h2 : sameLevel = false := by
            cases hsl : sameLevel
            · rfl
            · exact absurd ⟨h1, hsl⟩ hnot
          simp [h1, h2]
        · simp [h1]
      simp only [hcond, Bool.false_eq_true, if_false]
      refine ⟨List.map (fun c => (sendNB c (sseMessage eventType eventData nowNano)).1) subs,
        ?_, by simp, ?_⟩
      · exact findVal_setVal m rid _ (by simp [hfind])
      · intro c hc hfull
        have : (sendNB c (sseMessage eventType eventData nowNano)).1 = c := by
          unfold sendNB
          rw [if_neg (not_lt.mpr hfull)]
        rw [List.mem_map]
        exact ⟨c, hc, this⟩

/-- Witness for C9 (amended): a two-subscriber list with one full channel —
the dispatch errs (one failed send), both subscribers stay registered for an
update event, and a delete dispatch at the same level drops the entry. -/
theorem c9_witness :
    ((Dispatch [("p", [SubChan.mk 0 [], SubChan.mk 2 []])] "p" "d" false "update"
        0).2.isSome = true ↔
      ∃ c ∈ [SubChan.mk 0 [], SubChan.mk 2 []], c.cap ≤ c.buf.length) ∧
    (¬("update" = "delete" ∧ false = true) →
      ∃ subs2,
        findVal (Dispatch [("p", [SubChan.mk 0 [], SubChan.mk 2 []])] "p" "d" false
          "update" 0).1 "p" = some subs2 ∧
        subs2.length = [SubChan.mk 0 [], SubChan.mk 2 []].length ∧
        ∀ c ∈ [SubChan.mk 0 [], SubChan.mk 2 []], c.cap ≤ c.buf.length → c ∈ subs2) ∧
    ("delete" = "delete" ∧ true = true →
      findVal (Dispatch [("p", [SubChan.mk 0 [], SubChan.mk 2 []])] "p" "d" true
        "delete" 0).1 "p" = none) := by
  have h1 := (c9_dispatch_error_and_purge_semantics
    [("p", [SubChan.mk 0 [], SubChan.mk 2 []])] "p" "d" false "update" 0).2
    [SubChan.mk 0 [], SubChan.mk 2 []] (by decide) (by decide)
  have h2 := (c9_dispatch_error_and_purge_semantics
    [("p", [SubChan.mk 0 [], SubChan.mk 2 []])] "p" "d" true "delete" 0).2
    [SubChan.mk 0 [], SubChan.mk 2 []] (by decide) (by decide)
  exact ⟨h1.1, h1.2.2, h2.2.1⟩

/-- Verbs supported per resource kind, following the spec's words (the table
of §4.3: Database and Collection take GET, PUT, POST, DELETE; Document takes
GET, PUT, DELETE, PATCH). -/
def SpecSupportedVerbs (kind : String) : List String :=
  if kind = "Database" then ["GET", "PUT", "POST", "DELETE"]
  else if kind = "Document" then ["GET", "PUT", "DELETE", "PATCH"]
  else if kind = "Collection" then ["GET", "PUT", "POST", "DELETE"]
  else []

/-- Resource kind classified by path depth, following the claim's words:
depth 1 is a Database, even depth a Document, odd depth above 1 a
Collection. -/
def SpecKind (depth : Nat) : String :=
  if depth = 1 then "Database"
  else if depth % 2 = 0 then "Document"
  else "Collection"

/-- Acceptance condition of the claim, stated from the spec's words: the verb
is in the supported set for the kind classified by path depth; Document paths
have no trailing slash and no interval parameter; Collection paths have a
trailing slash and no nooverwrite mode; Database paths have no trailing slash
for PUT/DELETE, a trailing slash for GET/POST, and no nooverwrite mode. -/
def SpecAccept (method : String) (depth : Nat) (slashEnd interval overwrite : Bool) : Prop :=
  method ∈ SpecSupportedVerbs (SpecKind depth) ∧
  (SpecKind depth = "Document" → slashEnd = false ∧ interval = false) ∧
  (SpecKind depth = "Collection" → slashEnd = true ∧ overwrite = false) ∧
  (SpecKind depth = "Database" →
    ((method = "PUT" ∨ method = "DELETE") → slashEnd = false) ∧
    ((method = "GET" ∨ method = "POST") → slashEnd = true) ∧
    overwrite = false)

/-- C7: the source's request validation accepts a verb, path shape and query
combination exactly when the spec's validation matrix does, and every
rejected request is answered with HTTP 400. -/
theorem c7_request_validation_matches_spec :
    ∀ (method : String) (n : Nat) (slashEnd interval overwrite : Bool),
      (RequestValid method (GetStorageType n) slashEnd interval overwrite = true ↔
        SpecAccept method n slashEnd interval overwrite) ∧
      (RequestValid method (GetStorageType n) slashEnd interval overwrite = false →
        validationCode method (GetStorageType n) slashEnd interval overwrite = some 400) := by
  intro method n slashEnd interval overwrite
  refine ⟨?_, fun h => by simp [validationCode, h]⟩
  have hkind : GetStorageType n = SpecKind n := rfl
  rw [hkind]
  by_cases h1 : n = 1
  · simp only [SpecKind, if_pos h1]
    by_cases hG : method = "GET" <;> by_cases hPu : method = "PUT" <;>
      by_cases hPo : method = "POST" <;> by_cases hD : method = "DELETE" <;>
      cases slashEnd <;> cases overwrite <;>
      simp_all [RequestValid, GetSupportedRequests, SpecAccept, SpecSupportedVerbs,
        SpecKind, h1]
  · by_cases h2 : n % 2 = 0
    · simp only [SpecKind, if_neg h1, if_pos h2]
      by_cases hG : method = "GET" <;> by_cases hPu : method = "PUT" <;>
        by_cases hD : method = "DELETE" <;> by_cases hPa : method = "PATCH" <;>
        cases slashEnd <;> cases interval <;>
        simp_all [RequestValid, GetSupportedRequests, SpecAccept, SpecSupportedVerbs,
          SpecKind, h1, h2]
    · simp only [SpecKind, if_neg h1, if_neg h2]
      by_cases hG : method = "GET" <;> by_cases hPu : method = "PUT" <;>
        by_cases hPo : method = "POST" <;> by_cases hD : method = "DELETE" <;>
        cases slashEnd <;> cases overwrite <;>
        simp_all [RequestValid, GetSupportedRequests, SpecAccept, SpecSupportedVerbs,
          SpecKind, h1, h2]

/-- Witness for C7: PATCH on a database path is rejected with 400, and the
equivalence holds at a concrete document PUT with nooverwrite mode. -/
theorem c7_witness :
    validationCode "PATCH" (GetStorageType 1) false false false = some 400 ∧
    (RequestValid "PUT" (GetStorageType 2) false false true = true ↔
      SpecAccept "PUT" 2 false false true) :=
  ⟨(c7_request_validation_matches_spec "PATCH" 1 false false false).2 (by decide),
   (c7_request_validation_matches_spec "PUT" 2 false false true).1⟩

/-- C6: a default-mode PUT on an existing document replaces only the content,
stamps `lastModifiedAt` with the current time and `lastModifiedBy` with the
requester, and leaves `createdBy`, `createdAt`, the path and the
child-collection map untouched, so `createdAt ≤ lastModifiedAt` keeps
holding. -/
theorem c6_put_overwrite_replaces_content_preserves_creation :
    ∀ (before rest : List (String × Document)) (d : Document) (name : String)
      (pathSegments : List String) (content : Json) (username : String)
      (validator : Validator) (now : Int),
    pathSegments.getLastD "" = name →
    ¬(name ≤ minSentinel ∨ maxSentinel ≤ name) →
    (∀ p ∈ before, p.1 < name) →
    validator content = none →
    d.metadata.createdAt ≤ now →
    ∃ d2,
      Collection.HandlePut (before ++ (name, d) :: rest) pathSegments content username
          validator false now =
        (before ++ (name, d2) :: rest,
          some (PutResponse.mk ("/v1/" ++ String.intercalate "/" pathSegments)),
          Status.mk "Overwritten" none) ∧
      d2.contents = content ∧
      d2.metadata.lastModifiedAt = now ∧
      d2.metadata.lastModifiedBy = username ∧
      d2.metadata.createdBy = d.metadata.createdBy ∧
      d2.metadata.createdAt = d.metadata.createdAt ∧
      d2.collections = d.collections ∧
      d2.path = d.path ∧
      d2.metadata.createdAt ≤ d2.metadata.lastModifiedAt := by
  intro before rest d name pathSegments content username validator now
    hlast hkey hb hval hts
  refine ⟨Document.mk d.path content
    { d.metadata with lastModifiedAt := now, lastModifiedBy := username }
    d.collections, ?_, rfl, rfl, rfl, rfl, rfl, rfl, rfl, hts⟩
  have hup := Upsert_found_inplace minSentinel maxSentinel before rest name d
    (DocCheckOverwrite (Document.mk ("/v1/" ++ String.intercalate "/" pathSegments)
      content (Metadata.mk username now username now) []) now)
    (some (Document.mk d.path content
      { d.metadata with lastModifiedAt := now, lastModifiedBy := username }
      d.collections))
    hkey hb rfl
  simp only [Collection.HandlePut, NewDocument, hval, hlast, Bool.false_eq_true,
    if_false, hup, Option.getD_some, if_true]

/-- Witness for C6: overwriting the document "doc" (created by alice at time
3) with new content as bob at time 5. -/
theorem c6_witness :
    ∃ d2,
      Collection.HandlePut
          [("doc", Document.mk "/v1/db/doc" (.obj []) (Metadata.mk "alice" 3 "alice" 3) [])]
          ["db", "doc"] (.obj [("x", .num 1)]) "bob" (fun _ => none) false 5 =
        ([("doc", d2)],
          some (PutResponse.mk ("/v1/" ++ String.intercalate "/" ["db", "doc"])),
          Status.mk "Overwritten" none) ∧
      d2.contents = .obj [("x", .num 1)] ∧
      d2.metadata.lastModifiedAt = 5 ∧
      d2.metadata.lastModifiedBy = "bob" ∧
      d2.metadata.createdBy =
        (Document.mk "/v1/db/doc" (.obj []) (Metadata.mk "alice" 3 "alice" 3) []).metadata.createdBy ∧
      d2.metadata.createdAt =
        (Document.mk "/v1/db/doc" (.obj []) (Metadata.mk "alice" 3 "alice" 3) []).metadata.createdAt ∧
      d2.collections =
        (Document.mk "/v1/db/doc" (.obj []) (Metadata.mk "alice" 3 "alice" 3) []).collections ∧
      d2.path =
        (Document.mk "/v1/db/doc" (.obj []) (Metadata.mk "alice" 3 "alice" 3) []).path ∧
      d2.metadata.createdAt ≤ d2.metadata.lastModifiedAt := by
  have h := c6_put_overwrite_replaces_content_preserves_creation
    [] [] (Document.mk "/v1/db/doc" (.obj []) (Metadata.mk "alice" 3 "alice" 3) [])
    "doc" ["db", "doc"] (.obj [("x", .num 1)]) "bob" (fun _ => none) 5
    rfl
    (by
      rintro (h1 | h2)
      · exact absurd (String.le_iff_toList_le.mp h1) (by decide)
      · exact absurd (String.le_iff_toList_le.mp h2) (by decide))
    (by intro p hp; cases hp)
    rfl
    (by decide)
  simpa using h

/-- C2 counterexample: a PATCH whose op application fails (ArrayAdd at a
number) on an existing document leaves the document unchanged but is answered
with the "Patched" status class, which maps to HTTP 200 — not the claimed
400.  The failure is reported only inside the response body
(`patch_failed = true`). -/
theorem c2_failed_patch_answers_200_not_400 :
    Collection.HandlePatch
        [("doc", Document.mk "/v1/db/doc" (.obj [("x", .num 1)])
          (Metadata.mk "u" 0 "u" 0) [])]
        ["db", "doc"] [Patch.mk "ArrayAdd" "/x" (.num 2)] (fun _ => none) "alice" 7 =
      ([("doc", Document.mk "/v1/db/doc" (.obj [("x", .num 1)])
          (Metadata.mk "u" 0 "u" 0) [])],
        PatchResponse.mk ("/v1/" ++ String.intercalate "/" ["db", "doc"]) true
          "expected array but found number",
        Status.mk "Patched" none) ∧
    (Document.mk "/v1/db/doc" (.obj [("x", .num 1)])
        (Metadata.mk "u" 0 "u" 0) []).patchRequest
      [Patch.mk "ArrayAdd" "/x" (.num 2)] (fun _ => none) "alice" 7 =
      .error "expected array but found number" ∧
    GetStatusCode "Patched" = (200, true) ∧
    (GetStatusCode "Patched").1 ≠ 400 := by
  have hkey : ¬(("doc" : String) ≤ minSentinel ∨ maxSentinel ≤ "doc") := by
    rintro (h1 | h2)
    · exact absurd (String.le_iff_toList_le.mp h1) (by decide)
    · exact absurd (String.le_iff_toList_le.mp h2) (by decide)
  have hup : SkipList.Upsert minSentinel maxSentinel
      [("doc", Document.mk "/v1/db/doc" (.obj [("x", .num 1)])
        (Metadata.mk "u" 0 "u" 0) [])] "doc"
      (DocPatchCheck [Patch.mk "ArrayAdd" "/x" (.num 2)] (fun _ => none) "alice" 7) =
      ([("doc", Document.mk "/v1/db/doc" (.obj [("x", .num 1)])
        (Metadata.mk "u" 0 "u" 0) [])], true, some "expected array but found number") := by
    simpa using Upsert_found_err minSentinel maxSentinel [] [] "doc"
      (Document.mk "/v1/db/doc" (.obj [("x", .num 1)]) (Metadata.mk "u" 0 "u" 0) [])
      (DocPatchCheck [Patch.mk "ArrayAdd" "/x" (.num 2)] (fun _ => none) "alice" 7)
      none none "expected array but found number" hkey (by intro p hp; cases hp) rfl
  refine ⟨?_, rfl, by decide, by decide⟩
  simp only [Collection.HandlePatch,
    show (["db", "doc"] : List String).getLastD "" = "doc" from rfl, hup]

/-- C2 (amended): a PATCH on an existing document whose patch application or
post-patch validation fails is aborted — the document's content and metadata
are unchanged — but the HTTP response status is 200 (status class "Patched"),
with the failure reported only in the response body (`patch_failed = true`
and the error message); it is not 400. -/
theorem c2_amended_patch_failure_unchanged_but_200 :
    ∀ (before rest : List (String × Document)) (d : Document) (name : String)
      (pathSegments : List String) (ops : List Patch) (validator : Validator)
      (username : String) (now : Int) (e : String),
    pathSegments.getLastD "" = name →
    ¬(name ≤ minSentinel ∨ maxSentinel ≤ name) →
    (∀ p ∈ before, p.1 < name) →
    d.patchRequest ops validator username now = .error e →
    Collection.HandlePatch (before ++ (name, d) :: rest) pathSegments ops validator
        username now =
      (before ++ (name, d) :: rest,
        PatchResponse.mk ("/v1/" ++ String.intercalate "/" pathSegments) true e,
        Status.mk "Patched" none) ∧
    GetStatusCode "Patched" = (200, true) := by
  intro before rest d name pathSegments ops validator username now e hlast hkey hb hpr
  have hc : DocPatchCheck ops validator username now name (some d) true =
      SkipList.CheckOutcome.mk none (some e) none := by
    simp only [DocPatchCheck, if_true, hpr]
  have hup := Upsert_found_err minSentinel maxSentinel before rest name d
    (DocPatchCheck ops validator username now) none none e hkey hb hc
  refine ⟨?_, by decide⟩
  simp only [Collection.HandlePatch, hlast, hup, Option.getD_none]

/-- Witness for C2 (amended): the concrete failing ArrayAdd-at-a-number patch
from the counterexample, driven through the amended theorem. -/
theorem c2_witness :
    Collection.HandlePatch
        [("doc", Document.mk "/v1/db/doc" (.obj [("x", .num 1)])
          (Metadata.mk "u" 0 "u" 0) [])]
        ["db", "doc"] [Patch.mk "ArrayAdd" "/x" (.num 2)] (fun _ => none) "alice" 7 =
      ([("doc", Document.mk "/v1/db/doc" (.obj [("x", .num 1)])
          (Metadata.mk "u" 0 "u" 0) [])],
        PatchResponse.mk ("/v1/" ++ String.intercalate "/" ["db", "doc"]) true
          "expected array but found number",
        Status.mk "Patched" none) ∧
    GetStatusCode "Patched" = (200, true) := by
  have h := c2_amended_patch_failure_unchanged_but_200
    [] [] (Document.mk "/v1/db/doc" (.obj [("x", .num 1)]) (Metadata.mk "u" 0 "u" 0) [])
    "doc" ["db", "doc"] [Patch.mk "ArrayAdd" "/x" (.num 2)] (fun _ => none) "alice" 7
    "expected array but found number"
    rfl
    (by
      rintro (h1 | h2)
      · exact absurd (String.le_iff_toList_le.mp h1) (by decide)
      · exact absurd (String.le_iff_toList_le.mp h2) (by decide))
    (by intro p hp; cases hp)
    rfl
  simpa using h

/-- The array target transformation of `ArrayAdd` is idempotent-on-ok as a
visitor: reapplying it to its own output changes nothing (the appended value
is found by the containment scan, `v` being well-formed so that structural
equality is reflexive on it). -/
theorem arrayVisit_add_idem (v : Json) (hrefl : jsonEq v v = true) :
    ∀ x y : Json, arrayVisit (fun xs => arrAddList xs v) x = .ok y →
      arrayVisit (fun xs => arrAddList xs v) y = .ok y := by
  intro x y h
  match x with
  | .arr xs =>
    simp only [arrayVisit, Except.ok.injEq] at h
    subst h
    simp only [arrayVisit, arrAddList_idem xs v hrefl]
  | .obj fields => simp [arrayVisit] at h
  | .str s => simp [arrayVisit] at h
  | .num n => simp [arrayVisit] at h
  | .bool b => simp [arrayVisit] at h
  | .null => simp [arrayVisit] at h

/-- The array target transformation of `ArrayRemove` is idempotent-on-ok as a
visitor. -/
theorem arrayVisit_remove_idem (v : Json) :
    ∀ x y : Json, arrayVisit (fun xs => arrRemoveList xs v) x = .ok y →
      arrayVisit (fun xs => arrRemoveList xs v) y = .ok y := by
  intro x y h
  match x with
  | .arr xs =>
    simp only [arrayVisit, Except.ok.injEq] at h
    subst h
    simp only [arrayVisit, arrRemoveList_idem xs v]
  | .obj fields => simp [arrayVisit] at h
  | .str s => simp [arrayVisit] at h
  | .num n => simp [arrayVisit] at h
  | .bool b => simp [arrayVisit] at h
  | .null => simp [arrayVisit] at h

/-- C5: on every JSON array `a` and well-formed value `v`, `ArrayAdd` appends
`v` iff no structurally-equal element is already present, and applying it
twice equals applying it once; `ArrayRemove` removes all structurally-equal
occurrences of `v` and is likewise idempotent — both for the raw array
transformation and for the whole-document ops through a JSON pointer. -/
theorem c5_array_add_remove_set_semantics :
    ∀ (a : List Json) (v : Json), v.wf = true →
      (jsonContains a v = true → arrAddList a v = a) ∧
      (jsonContains a v = false → arrAddList a v = a ++ [v]) ∧
      arrAddList (arrAddList a v) v = arrAddList a v ∧
      (∀ x ∈ arrRemoveList a v, jsonEq x v = false) ∧
      arrRemoveList (arrRemoveList a v) v = arrRemoveList a v ∧
      (∀ (j j2 : Json) (segs : List String),
        applyArrayAdd j segs v = .ok j2 → applyArrayAdd j2 segs v = .ok j2) ∧
      (∀ (j j2 : Json) (segs : List String),
        applyArrayRemove j segs v = .ok j2 → applyArrayRemove j2 segs v = .ok j2) := by
  intro a v hv
  have hrefl := jsonEq_refl v hv
  refine ⟨fun h => by simp [arrAddList, h], fun h => by simp [arrAddList, h],
    arrAddList_idem a v hrefl, ?_, arrRemoveList_idem a v, ?_, ?_⟩
  · intro x hx
    have := List.mem_filter.mp hx
    simpa using this.2
  · intro j j2 segs h
    match segs with
    | [] => simp [applyArrayAdd] at h
    | seg :: rest =>
      exact modifyJSON_idem _ (arrayVisit_add_idem v hrefl) (seg :: rest) j j2 h
  · intro j j2 segs h
    match segs with
    | [] => simp [applyArrayRemove] at h
    | seg :: rest =>
      exact modifyJSON_idem _ (arrayVisit_remove_idem v) (seg :: rest) j j2 h

/-- Witness for C5: adding 2 to `[1]` appends (and is then idempotent, also
through the pointer `/a`), removing 2 from `[1, 2, 2]` removes both
occurrences and is idempotent. -/
theorem c5_witness :
    arrAddList (arrAddList [Json.num 1] (Json.num 2)) (Json.num 2) =
      arrAddList [Json.num 1] (Json.num 2) ∧
    arrRemoveList
        (arrRemoveList [Json.num 1, Json.num 2, Json.num 2] (Json.num 2)) (Json.num 2) =
      arrRemoveList [Json.num 1, Json.num 2, Json.num 2] (Json.num 2) ∧
    (∀ x ∈ arrRemoveList [Json.num 1, Json.num 2, Json.num 2] (Json.num 2),
      jsonEq x (Json.num 2) = false) ∧
    applyArrayAdd (Json.obj [("a", Json.arr [Json.num 1])]) ["a"] (Json.num 2) =
      .ok (Json.obj [("a", Json.arr [Json.num 1, Json.num 2])]) ∧
    applyArrayAdd (Json.obj [("a", Json.arr [Json.num 1, Json.num 2])]) ["a"]
        (Json.num 2) =
      .ok (Json.obj [("a", Json.arr [Json.num 1, Json.num 2])]) := by
  have hwf : (Json.num 2).wf = true := by simp [Json.wf]
  have hadd : applyArrayAdd (Json.obj [("a", Json.arr [Json.num 1])]) ["a"]
      (Json.num 2) = .ok (Json.obj [("a", Json.arr [Json.num 1, Json.num 2])]) := by
    simp [applyArrayAdd, modifyJSON, findVal, arrayVisit, arrAddList, jsonContains,
      jsonEq, replaceVal]
  have h1 := c5_array_add_remove_set_semantics [Json.num 1] (Json.num 2) hwf
  have h2 := c5_array_add_remove_set_semantics [Json.num 1, Json.num 2, Json.num 2]
    (Json.num 2) hwf
  exact ⟨h1.2.2.1, h2.2.2.2.2.1, h2.2.2.2.1, hadd,
    h1.2.2.2.2.2.1 (Json.obj [("a", Json.arr [Json.num 1])])
      (Json.obj [("a", Json.arr [Json.num 1, Json.num 2])]) ["a"] hadd⟩

end OwlDB
